import Mathlib

/-!
Shallow embedding of the trading-cycle orchestration core of the
SE-Slayer-Paul repository, together with proofs settling the frozen claims
about it.

Conventions of the embedding:
* Python dicts produced by parsing JSON are modelled as association lists
  `List (String × JVal)`; `dict.get k` is `List.lookup`, `dict.setdefault`
  appends at the end when the key is absent (insertion order preserved).
* `json.loads` is a Python standard-library routine, not repository code;
  it is abstracted as a parameter `parse : String → Option (List (String × JVal))`
  (`none` models a raised `json.JSONDecodeError`).  Every theorem quantifying
  over `parse` therefore holds for the real parser.
* Machine floats are modelled as `ℚ`; Python `round(x, 6)` is round half to
  even at six decimals (`pyRound6`).
* Raised exceptions are modelled with `Except String`; the message mirrors
  the Python exception type.
* File I/O (CSV append, JSON settings file) is abstracted to the list of
  appended rows, respectively the in-memory dict; durability is outside the
  embedding.
-/

set_option allowUnsafeReducibility true
attribute [semireducible] Rat.add Rat.mul Rat.sub Rat.inv

namespace TB

/-- A parsed JSON value (the shape `json.loads` can return). -/
inductive JVal where
  | null : JVal
  | bool (b : Bool) : JVal
  | num (q : ℚ) : JVal
  | str (s : String) : JVal
  | arr (elems : List JVal) : JVal
  | obj (fields : List (String × JVal)) : JVal

/-- A Python dict with JSON values, in insertion order. -/
abbrev JDict := List (String × JVal)

/-- Python `d.setdefault(k, v)`: keep `d` if `k` is present, else insert
`k ↦ v` (at the end, matching dict insertion order). -/
def setdefault (d : JDict) (k : String) (v : JVal) : JDict :=
  if (d.lookup k).isSome then d else d ++ [(k, v)]

/-- Index of the first occurrence of `c` in `cs` (Python `str.find`),
`none` when absent (Python returns `-1`). -/
def charFind (cs : List Char) (c : Char) : Option Nat :=
  cs.findIdx? (· == c)

/-- Index of the last occurrence of `c` in `cs` (Python `str.rfind`),
`none` when absent. -/
def charRfind (cs : List Char) (c : Char) : Option Nat :=
  match charFind cs.reverse c with
  | none => none
  | some j => some (cs.length - 1 - j)

/-- The brace-extraction step of `analyze_market_with_openai`
(src/ai/openai_agent.py lines 69 to 76): the substring of `raw` from the
first opening brace to the last closing brace, `none` when either brace is
missing or the last closing brace precedes the first opening brace. -/
def extractJsonStr (raw : String) : Option String :=
  let cs := raw.toList
  match charFind cs '{', charRfind cs '}' with
  | some js, some je =>
      if je < js then none
      else some ((cs.drop js).take (je + 1 - js)).asString
  | _, _ => none

/-- The six decision keys with the defaults `analyze_market_with_openai`
fills in (src/ai/openai_agent.py lines 88 to 93). -/
def decisionDefaults : List (String × JVal) :=
  [("recommendation", .str "HOLD"),
   ("reasoning", .str "No response from AI."),
   ("position_sizing", .num 0),
   ("stop_loss", .null),
   ("take_profit", .null),
   ("next_cycle_seconds", .null)]

/-- Apply the six `setdefault` calls in source order. -/
def setDecisionDefaults (d : JDict) : JDict :=
  decisionDefaults.foldl (fun acc kv => setdefault acc kv.1 kv.2) d

/-- src/ai/openai_agent.py `analyze_market_with_openai`, from the raw model
response onwards (prompt construction and the HTTP call are external; an
API-level failure returns an error dict just like the two parse failures
below and is not modelled separately).  `parse` abstracts `json.loads`. -/
def analyze_market_with_openai (parse : String → Option JDict) (raw : String) : JDict :=
  match extractJsonStr raw with
  | none =>
      [("error", .str "OpenAI did not return valid JSON."),
       ("raw_response", .str raw)]
  | some jsonStr =>
      match parse jsonStr with
      | none =>
          [("error", .str "OpenAI JSON parse error"),
           ("raw_response", .str raw)]
      | some d => setDecisionDefaults d

/-- All six decision keys are present. -/
def hasAllDecisionKeys (d : JDict) : Bool :=
  decisionDefaults.all fun kv => (d.lookup kv.1).isSome

theorem lookup_append_right {α β : Type _} [BEq α] (l l' : List (α × β)) (k : α)
    (h : (l.lookup k).isSome = false) : ((l ++ l').lookup k) = l'.lookup k := by
  induction l with
  | nil => simp
  | cons p t ih =>
      rcases p with ⟨a, b⟩
      by_cases hk : k == a
      · simp [List.lookup, hk] at h
      · simpa [List.lookup, hk] using ih (by simpa [List.lookup, hk] using h)

theorem lookup_append_left {α β : Type _} [BEq α] (l l' : List (α × β)) (k : α)
    (h : (l.lookup k).isSome = true) : ((l ++ l').lookup k) = l.lookup k := by
  induction l with
  | nil => simp at h
  | cons p t ih =>
      rcases p with ⟨a, b⟩
      by_cases hk : k == a
      · simp [List.lookup, hk]
      · simp only [List.cons_append, List.lookup, hk]
        exact ih (by simpa [List.lookup, hk] using h)

theorem lookup_setdefault_isSome (d : JDict) (k : String) (v : JVal) :
    ((setdefault d k v).lookup k).isSome := by
  unfold setdefault
  by_cases h : (d.lookup k).isSome
  · simp [h]
  · rw [if_neg (by simp [h])]
    rw [lookup_append_right d [(k, v)] k (by simpa only [Bool.not_eq_true] using h)]
    simp [List.lookup]

theorem lookup_setdefault_mono (d : JDict) (k k' : String) (v : JVal)
    (h : (d.lookup k').isSome) : ((setdefault d k v).lookup k').isSome := by
  unfold setdefault
  by_cases hk : (d.lookup k).isSome
  · simpa [hk] using h
  · rw [if_neg (by simp [hk])]
    rw [lookup_append_left d [(k, v)] k' h]
    exact h

theorem foldl_setdefault_mono (l : List (String × JVal)) (d : JDict) (k : String)
    (h : (d.lookup k).isSome) :
    ((l.foldl (fun acc kv => setdefault acc kv.1 kv.2) d).lookup k).isSome := by
  induction l generalizing d with
  | nil => simpa using h
  | cons p t ih =>
      simp only [List.foldl_cons]
      exact ih _ (lookup_setdefault_mono _ _ _ _ h)

theorem foldl_setdefault_mem (l : List (String × JVal)) (d : JDict) (k : String) (v : JVal)
    (h : (k, v) ∈ l) :
    ((l.foldl (fun acc kv => setdefault acc kv.1 kv.2) d).lookup k).isSome := by
  induction l generalizing d with
  | nil => simp at h
  | cons p t ih =>
      simp only [List.foldl_cons]
      rcases List.mem_cons.mp h with h1 | h2
      · subst h1
        exact foldl_setdefault_mono t _ k (lookup_setdefault_isSome d k v)
      · exact ih _ h2

theorem hasAllDecisionKeys_setDefaults (d : JDict) :
    hasAllDecisionKeys (setDecisionDefaults d) = true := by
  unfold hasAllDecisionKeys setDecisionDefaults
  rw [List.all_eq_true]
  intro kv hkv
  simpa using foldl_setdefault_mem decisionDefaults d kv.1 kv.2 (by simpa using hkv)

theorem lookup_append_single {β : Type _} (d : List (String × β)) (k k' : String) (v : β)
    (h : (k' == k) = false) : ((d ++ [(k, v)]).lookup k') = d.lookup k' := by
  induction d with
  | nil => simp [List.lookup, h]
  | cons p t ih =>
      rcases p with ⟨a, b⟩
      cases hka : (k' == a) with
      | true => simp [List.lookup, hka]
      | false => simpa [List.lookup, hka] using ih

theorem lookup_setdefault_self (d : JDict) (k : String) (v : JVal) :
    (setdefault d k v).lookup k = some ((d.lookup k).getD v) := by
  unfold setdefault
  cases h : d.lookup k with
  | some w =>
      rw [if_pos (by simp [h])]
      simp [h]
  | none =>
      rw [if_neg (by simp [h])]
      rw [lookup_append_right d [(k, v)] k (by simp [h])]
      simp [List.lookup]

theorem lookup_setdefault_ne (d : JDict) (k k' : String) (v : JVal)
    (h : (k' == k) = false) : (setdefault d k v).lookup k' = d.lookup k' := by
  unfold setdefault
  by_cases hk : (d.lookup k).isSome
  · rw [if_pos hk]
  · rw [if_neg hk]
    exact lookup_append_single d k k' v h

theorem foldl_setdefault_lookup_notmem (l : List (String × JVal)) (d : JDict) (k : String)
    (h : ∀ kv ∈ l, kv.1 ≠ k) :
    (l.foldl (fun acc kv => setdefault acc kv.1 kv.2) d).lookup k = d.lookup k := by
  induction l generalizing d with
  | nil => rfl
  | cons p t ih =>
      simp only [List.foldl_cons]
      rw [ih _ (fun kv hkv => h kv (List.mem_cons_of_mem _ hkv))]
      exact lookup_setdefault_ne d p.1 k p.2
        (beq_eq_false_iff_ne.mpr (h p (List.mem_cons_self _ _)).symm)

theorem foldl_setdefault_lookup (l : List (String × JVal)) (d : JDict)
    (k : String) (v : JVal) (hmem : (k, v) ∈ l)
    (hnd : l.Pairwise (fun a b => a.1 ≠ b.1)) :
    (l.foldl (fun acc kv => setdefault acc kv.1 kv.2) d).lookup k =
      some ((d.lookup k).getD v) := by
  induction l generalizing d with
  | nil => simp at hmem
  | cons p t ih =>
      simp only [List.foldl_cons]
      rcases List.mem_cons.mp hmem with h1 | h2
      · have hne : ∀ kv ∈ t, kv.1 ≠ k := by
          intro kv hkv
          have hpk := (List.pairwise_cons.mp hnd).1 kv hkv
          rw [← h1] at hpk
          exact fun hx => hpk (by rw [hx])
        rw [foldl_setdefault_lookup_notmem t _ k hne, ← h1]
        exact lookup_setdefault_self d k v
      · have hne : p.1 ≠ k := (List.pairwise_cons.mp hnd).1 (k, v) h2
        rw [ih _ h2 (List.pairwise_cons.mp hnd).2]
        rw [lookup_setdefault_ne d p.1 k p.2 (beq_eq_false_iff_ne.mpr hne.symm)]

theorem lookup_setDecisionDefaults (dp : JDict) (kv : String × JVal)
    (hkv : kv ∈ decisionDefaults) :
    (setDecisionDefaults dp).lookup kv.1 = some ((dp.lookup kv.1).getD kv.2) :=
  foldl_setdefault_lookup decisionDefaults dp kv.1 kv.2 hkv (by decide)

/-- C9: for every raw response string, `analyze_market_with_openai` returns
a dict that either carries an `error` key with the raw response attached, or
carries all six decision keys, where each key's value is the parsed JSON's
value when the key was present and the default (HOLD, "No response from
AI.", 0, null, null, null) when the parsed JSON omitted it; it never returns
a dict missing both. -/
theorem c9_decision_shape (parse : String → Option JDict) (raw : String) :
    ((((analyze_market_with_openai parse raw).lookup "error").isSome = true) ∧
      (analyze_market_with_openai parse raw).lookup "raw_response" = some (.str raw))
    ∨ (hasAllDecisionKeys (analyze_market_with_openai parse raw) = true ∧
        ∀ kv ∈ decisionDefaults, ∀ js dp, extractJsonStr raw = some js →
          parse js = some dp →
          (analyze_market_with_openai parse raw).lookup kv.1 =
            some ((dp.lookup kv.1).getD kv.2)) := by
  cases hx : extractJsonStr raw with
  | none =>
      refine Or.inl ⟨?_, ?_⟩ <;> simp [analyze_market_with_openai, hx, List.lookup]
  | some js =>
      cases hp : parse js with
      | none =>
          refine Or.inl ⟨?_, ?_⟩ <;>
            simp [analyze_market_with_openai, hx, hp, List.lookup]
      | some d =>
          refine Or.inr ⟨?_, ?_⟩
          · simp only [analyze_market_with_openai, hx, hp]
            exact hasAllDecisionKeys_setDefaults d
          · intro kv hkv js' dp hjs hdp
            injection hjs with hjs
            rw [← hjs] at hdp
            rw [hp] at hdp
            injection hdp with hdp
            subst hdp
            simp only [analyze_market_with_openai, hx, hp]
            exact lookup_setDecisionDefaults d kv hkv

/-- Witness for C9: a parsed object carrying only a recommendation gets the
sizing default 0 filled in. -/
theorem c9_decision_shape_witness :
    (analyze_market_with_openai (fun _ => some [("recommendation", JVal.str "BUY")])
        "\x7bjson\x7d").lookup "position_sizing" = some (JVal.num 0) := by
  rcases c9_decision_shape (fun _ => some [("recommendation", JVal.str "BUY")])
      "\x7bjson\x7d" with ⟨herr, _⟩ | ⟨_, hdef⟩
  · exact absurd herr (by decide)
  · exact hdef ("position_sizing", JVal.num 0)
      (List.mem_cons_of_mem _ (List.mem_cons_of_mem _ (List.mem_cons_self _ _)))
      "\x7bjson\x7d" [("recommendation", JVal.str "BUY")] rfl rfl

/-- Python `int(s)`-style digit run value. -/
def digitsVal (cs : List Char) : ℕ :=
  cs.foldl (fun a c => a * 10 + (c.toNat - 48)) 0

/-- Unsigned decimal literal `digits [ . digits ]` as accepted by Python
`float` (exponent notation and surrounding whitespace are not needed by any
claim and are not modelled). -/
def parseUDecimal (cs : List Char) : Option ℚ :=
  let intPart := cs.takeWhile (·.isDigit)
  let rest := cs.dropWhile (·.isDigit)
  match rest with
  | [] => if intPart.isEmpty then none else some (digitsVal intPart : ℚ)
  | '.' :: frac =>
      if frac.all (·.isDigit) ∧ ¬(intPart.isEmpty ∧ frac.isEmpty) then
        some ((digitsVal intPart : ℚ) + (digitsVal frac : ℚ) / (10 : ℚ) ^ frac.length)
      else none
  | _ => none

/-- Python `float(x)` on a parsed-JSON value: numbers and booleans convert,
decimal strings parse, everything else raises (`TypeError`/`ValueError`). -/
def pyFloat : JVal → Except String ℚ
  | .num q => .ok q
  | .bool b => .ok (if b then 1 else 0)
  | .str s =>
      let r := match s.toList with
        | '-' :: rest => (parseUDecimal rest).map (fun q => -q)
        | '+' :: rest => parseUDecimal rest
        | cs => parseUDecimal cs
      match r with
      | some q => .ok q
      | none => .error "ValueError: could not convert string to float"
  | .null => .error "TypeError: float() argument must not be None"
  | .arr _ => .error "TypeError: float() argument must not be a list"
  | .obj _ => .error "TypeError: float() argument must not be a dict"

/-- Round half to even to an integer (Python `round`). -/
def pyRoundInt (q : ℚ) : ℤ :=
  let f := ⌊q⌋
  let r := q - (f : ℚ)
  if r < 1 / 2 then f
  else if 1 / 2 < r then f + 1
  else if f % 2 = 0 then f else f + 1

/-- Python `round(x, 6)`. -/
def pyRound6 (q : ℚ) : ℚ :=
  (pyRoundInt (q * 1000000) : ℚ) / 1000000

/-- Python `round(x, 2)` (used by `summarize_for_ai`). -/
def pyRound2 (q : ℚ) : ℚ :=
  (pyRoundInt (q * 100) : ℚ) / 100

/-- src/attached_assets/intervals_1753975323299.py: the interval-settings
store.  The JSON file contents are modelled as the in-memory dict (a list of
key/value pairs in insertion order, keys unique); `load_intervals` and
`save_intervals` are the identity on this abstraction. -/
abbrev IntervalStore := List (String × ℚ)

/-- Python `intervals[asset] = interval`: overwrite in place when the key
exists, else append. -/
def dictSet (d : IntervalStore) (k : String) (v : ℚ) : IntervalStore :=
  if (d.lookup k).isSome then
    d.map (fun p => match p.1 == k with | true => (p.1, v) | false => p)
  else d ++ [(k, v)]

/-- `set_interval(asset, interval)`: load, assign, save. -/
def set_interval (asset : String) (interval : ℚ) (store : IntervalStore) : IntervalStore :=
  dictSet store asset interval

/-- `get_interval(asset, default=60)`: `intervals.get(asset, default)`. -/
def get_interval (asset : String) (dflt : ℚ) (store : IntervalStore) : ℚ :=
  (store.lookup asset).getD dflt

theorem lookup_map_set_ne (d : IntervalStore) (k k' : String) (v : ℚ) (h : k' ≠ k) :
    ((d.map (fun p => match p.1 == k with | true => (p.1, v) | false => p)).lookup k')
      = d.lookup k' := by
  induction d with
  | nil => simp
  | cons p t ih =>
      rcases p with ⟨a, b⟩
      by_cases hka : k' = a
      · subst hka
        have hak : (k' == k) = false := beq_eq_false_iff_ne.mpr h
        simp [List.lookup, hak]
      · have h1 : (k' == a) = false := beq_eq_false_iff_ne.mpr hka
        cases hak : (a == k) with
        | true => simpa [List.lookup, hak, h1] using ih
        | false => simpa [List.lookup, hak, h1] using ih

theorem lookup_dictSet_self (d : IntervalStore) (k : String) (v : ℚ) :
    (dictSet d k v).lookup k = some v := by
  unfold dictSet
  by_cases h : (d.lookup k).isSome
  · rw [if_pos h]
    induction d with
    | nil => simp at h
    | cons p t ih =>
        rcases p with ⟨a, b⟩
        by_cases hk : k = a
        · subst hk
          simp [List.lookup]
        · have hba : (a == k) = false := beq_eq_false_iff_ne.mpr (Ne.symm hk)
          have hkb : (k == a) = false := beq_eq_false_iff_ne.mpr hk
          simp only [List.map_cons, hba, List.lookup, hkb]
          exact ih (by simpa [List.lookup, hkb] using h)
  · rw [if_neg h]
    rw [lookup_append_right d [(k, v)] k (by simpa only [Bool.not_eq_true] using h)]
    simp [List.lookup]

theorem lookup_dictSet_ne (d : IntervalStore) (k k' : String) (v : ℚ)
    (h : k' ≠ k) : (dictSet d k v).lookup k' = d.lookup k' := by
  unfold dictSet
  by_cases hk : (d.lookup k).isSome
  · rw [if_pos hk]
    exact lookup_map_set_ne d k k' v h
  · rw [if_neg hk]
    exact lookup_append_single d k k' v (beq_eq_false_iff_ne.mpr h)

/-- C10: `set_interval` round-trips through `get_interval`, and leaves every
other asset key unchanged. -/
theorem c10_interval_roundtrip (a b : String) (v d d' : ℚ) (s : IntervalStore) :
    get_interval a d (set_interval a v s) = v ∧
    (b ≠ a → get_interval b d' (set_interval a v s) = get_interval b d' s) := by
  constructor
  · unfold get_interval set_interval
    rw [lookup_dictSet_self]
    rfl
  · intro hba
    unfold get_interval set_interval
    rw [lookup_dictSet_ne s a b v hba]

/-- Witness for C10 at concrete inputs. -/
theorem c10_interval_roundtrip_witness :
    get_interval "BTC/USD" 60 (set_interval "BTC/USD" 120 [("ETH/USD", 45)]) = 120 ∧
    get_interval "ETH/USD" 60 (set_interval "BTC/USD" 120 [("ETH/USD", 45)]) =
      get_interval "ETH/USD" 60 [("ETH/USD", 45)] := by
  have h := c10_interval_roundtrip "BTC/USD" "ETH/USD" 120 60 60 [("ETH/USD", 45)]
  exact ⟨h.1, h.2 (by decide)⟩

/-- Symbol canonicalization of src/attached_assets/strategy_1753975310049.py
line 70: `sym.upper().replace('-', '/').replace('_', '/')` (uppercase first,
then both separators to '/'; charwise since the replaced characters are
single and distinct).  Python `str.upper()` modelled charwise (the symbols
in play are ASCII). -/
def strUpper (s : String) : String :=
  ⟨s.data.map Char.toUpper⟩

/-- Uppercase, then both separators to '/'. -/
def symCanon (s : String) : String :=
  ⟨(s.data.map Char.toUpper).map (fun c => if c == '-' || c == '_' then '/' else c)⟩

/-- Two asset identifiers differ only in letter case and in the choice of
separator among '-', '_' and '/' exactly when their canonical forms agree. -/
def sameUpToCaseAndSep (x y : String) : Bool :=
  symCanon x == symCanon y

/-- An open-position entry as the strategy reads it: a dict whose keys may
be absent (`pos.get('symbol')` is `none` when missing). -/
structure PositionD where
  symbol : Option String
  side : Option String
  qty : Option ℚ
deriving DecidableEq

/-- The position-lookup loop of strategy_1753975310049.py lines 64 to 72:
take the first entry whose canonicalized symbol equals the uppercased asset.
A dict without a `symbol` key leaves `pos_symbol = None` and the subsequent
`.upper()` raises `AttributeError` (the `getattr` fallbacks only apply to
non-dict objects). -/
def findOpenPositionE : List PositionD → String → Except String (Option PositionD)
  | [], _ => .ok none
  | p :: rest, asset =>
      match p.symbol with
      | none => .error "AttributeError: NoneType object has no attribute upper"
      | some sym =>
          if symCanon sym == strUpper asset then .ok (some p)
          else findOpenPositionE rest asset

/-- C8 counterexample: "BTC/USD" and "BTC-USD" differ only in the separator,
yet a position held as "BTC/USD" is not found when the cycle's asset is
spelled "BTC-USD" — only the position's symbol is canonicalized, the asset
itself is merely uppercased. -/
theorem c8_counterexample :
    sameUpToCaseAndSep "BTC/USD" "BTC-USD" = true ∧
    findOpenPositionE [⟨some "BTC/USD", some "long", some 1⟩] "BTC-USD" =
      .ok none :=
  ⟨rfl, rfl⟩

/-- C8 amended: the lookup matches a position whose symbol differs from the
asset only in case and separators provided the asset identifier itself,
uppercased, is already in canonical form (uses '/' as its separator). -/
theorem c8_amended (sym a : String) (side : Option String) (q : Option ℚ)
    (h1 : symCanon sym = symCanon a) (h2 : strUpper a = symCanon a) :
    findOpenPositionE [⟨some sym, side, q⟩] a = .ok (some ⟨some sym, side, q⟩) := by
  unfold findOpenPositionE
  have hb : (symCanon sym == strUpper a) = true :=
    beq_iff_eq.mpr (h1.trans h2.symm)
  simp [hb]

/-- Witness for C8 amended at concrete inputs. -/
theorem c8_amended_witness :
    findOpenPositionE [⟨some "btc_usd", some "long", some 1⟩] "BTC/USD" =
      .ok (some ⟨some "btc_usd", some "long", some 1⟩) :=
  c8_amended "btc_usd" "BTC/USD" (some "long") (some 1) rfl rfl

/-- What `submit_market_order` hands back, as the Execution Port contract
describes it (a record with optional fill fields); the broker's own error
path returns a dict carrying only an error string, so all three fields are
absent there, as they are on the `\x7b"info": ...\x7d` no-trade dict. -/
structure ExecDict where
  qty : Option ℚ
  price : Option ℚ
  status : Option String
deriving DecidableEq

/-- The `\x7b"info": "No trade triggered."\x7d` placeholder dict. -/
def noTradeExec : ExecDict := ⟨none, none, none⟩

/-- One CSV row appended by `log_trade` (src/utils/trade_log.py lines 22 to
42).  The timestamp and the free-text reasoning columns play no role in any
claim and are omitted; `qty`/`price` are the numeric cells `pandas.to_numeric`
later reads back (`none` = empty cell = NaN). -/
structure LogRow where
  asset : String
  action : Option JVal
  qty : Option ℚ
  price : Option ℚ
  position_sizing : Option JVal
  stop_loss : Option JVal
  take_profit : Option JVal
  result : String

/-- `log_trade`: flatten the cycle's record into one CSV row. -/
def log_trade (asset : String) (ai_decision : JDict) (executed : ExecDict) : LogRow :=
  { asset := asset
    action := ai_decision.lookup "recommendation"
    qty := executed.qty
    price := executed.price
    position_sizing := ai_decision.lookup "position_sizing"
    stop_loss := ai_decision.lookup "stop_loss"
    take_profit := ai_decision.lookup "take_profit"
    result := executed.status.getD "N/A" }

/-- The per-row P&L of performance_1753975323302.py line 15:
`qty * price` after `to_numeric(..., errors="coerce").fillna(0)`. -/
def pnlOf (r : LogRow) : ℚ :=
  r.qty.getD 0 * r.price.getD 0

/-- `win_trades["pnl"].idxmax()`: the original DataFrame label (row index in
the full log) of the first row attaining the maximum P&L. -/
def idxmaxPnl (l : List (ℕ × LogRow)) : Option ℕ :=
  (l.foldl (fun acc p =>
    match acc with
    | none => some (p.1, pnlOf p.2)
    | some (lbl, m) => if m < pnlOf p.2 then some (p.1, pnlOf p.2) else some (lbl, m))
    none).map (·.1)

/-- `loss_trades["pnl"].idxmin()`. -/
def idxminPnl (l : List (ℕ × LogRow)) : Option ℕ :=
  (l.foldl (fun acc p =>
    match acc with
    | none => some (p.1, pnlOf p.2)
    | some (lbl, m) => if pnlOf p.2 < m then some (p.1, pnlOf p.2) else some (lbl, m))
    none).map (·.1)

/-- `.iloc[i]` on a filtered frame: positional access, raising when out of
bounds. -/
def ilocRow (l : List (ℕ × LogRow)) (i : ℕ) : Except String LogRow :=
  match l.get? i with
  | some p => .ok p.2
  | none => .error "IndexError: single positional indexer is out-of-bounds"

/-- The stats dict built by `trade_performance_stats`. -/
structure PerfStats where
  total_trades : ℕ
  net_pnl : ℚ
  average_win : ℚ
  average_loss : ℚ
  win_rate : ℚ
  best_trade : Option LogRow
  worst_trade : Option LogRow

/-- The `win_trades` frame: rows with positive P&L, keeping their original
DataFrame labels. -/
def winRows (rows : List LogRow) : List (ℕ × LogRow) :=
  rows.enum.filter (fun p => 0 < pnlOf p.2)

/-- The `loss_trades` frame. -/
def lossRows (rows : List LogRow) : List (ℕ × LogRow) :=
  rows.enum.filter (fun p => pnlOf p.2 < 0)

/-- `win_trades.iloc[win_trades["pnl"].idxmax()].to_dict() if not
win_trades.empty else \x7b\x7d` — note the label from `idxmax` (a position in
the FULL log) is fed to `.iloc` (a position within the filtered frame). -/
def bestTradeE (rows : List LogRow) : Except String (Option LogRow) :=
  if (winRows rows).isEmpty then .ok none
  else
    match idxmaxPnl (winRows rows) with
    | some lbl => (ilocRow (winRows rows) lbl).map some
    | none => .ok none

/-- `loss_trades.iloc[loss_trades["pnl"].idxmin()].to_dict()` guarded the
same way. -/
def worstTradeE (rows : List LogRow) : Except String (Option LogRow) :=
  if (lossRows rows).isEmpty then .ok none
  else
    match idxminPnl (lossRows rows) with
    | some lbl => (ilocRow (lossRows rows) lbl).map some
    | none => .ok none

/-- Aggregate per-asset performance stats, `trade_performance_stats` of
performance_1753975323302.py.  `.ok none` is the empty dict returned for an
empty log. -/
def trade_performance_stats (rows : List LogRow) : Except String (Option PerfStats) :=
  if rows.isEmpty then .ok none
  else
    match bestTradeE rows with
    | .error e => .error e
    | .ok best =>
        match worstTradeE rows with
        | .error e => .error e
        | .ok worst =>
            .ok (some
              { total_trades := rows.length
                net_pnl := (rows.map pnlOf).sum
                average_win :=
                  if (winRows rows).isEmpty then 0
                  else ((winRows rows).map (fun p => pnlOf p.2)).sum / (winRows rows).length
                average_loss :=
                  if (lossRows rows).isEmpty then 0
                  else ((lossRows rows).map (fun p => pnlOf p.2)).sum / (lossRows rows).length
                win_rate := ((winRows rows).length : ℚ) / (rows.length : ℚ)
                best_trade := best
                worst_trade := worst })

/-- `stats.get("total_trades", 0)` as the strategy reads it back. -/
def tradeCountE (rows : List LogRow) : Except String ℕ :=
  match trade_performance_stats rows with
  | .error e => .error e
  | .ok none => .ok 0
  | .ok (some s) => .ok s.total_trades

theorem stats_ok_some_total (rows : List LogRow) (st : PerfStats)
    (h : trade_performance_stats rows = .ok (some st)) :
    st.total_trades = rows.length := by
  unfold trade_performance_stats at h
  by_cases he : rows.isEmpty
  · rw [if_pos he] at h
    simp at h
  · rw [if_neg he] at h
    split at h
    · simp at h
    · split at h
      · simp at h
      · simp only [Except.ok.injEq, Option.some.injEq] at h
        subst h
        rfl

theorem stats_ok_none_nil (rows : List LogRow)
    (h : trade_performance_stats rows = .ok none) : rows.length = 0 := by
  unfold trade_performance_stats at h
  by_cases he : rows.isEmpty
  · simpa using he
  · rw [if_neg he] at h
    split at h
    · simp at h
    · split at h
      · simp at h
      · simp at h

theorem tradeCountE_eq_length (rows : List LogRow) (c : ℕ)
    (h : tradeCountE rows = .ok c) : c = rows.length := by
  unfold tradeCountE at h
  cases hs : trade_performance_stats rows with
  | error e => rw [hs] at h; simp at h
  | ok o =>
      rw [hs] at h
      cases o with
      | none =>
          simp only [Except.ok.injEq] at h
          rw [← h, stats_ok_none_nil rows hs]
      | some st =>
          simp only [Except.ok.injEq] at h
          rw [← h, stats_ok_some_total rows st hs]

/-- A no-trade log row (empty qty and price cells). -/
def skippedRow : LogRow :=
  { asset := "BTC/USD", action := some (.str "HOLD"), qty := none, price := none
    position_sizing := some (.num 0), stop_loss := some .null
    take_profit := some .null, result := "N/A" }

/-- An executed-trade log row: qty 1 at price 100. -/
def executedRow : LogRow :=
  { asset := "BTC/USD", action := some (.str "BUY"), qty := some 1, price := some 100
    position_sizing := some (.num 10), stop_loss := some .null
    take_profit := some .null, result := "filled" }

/-- C7: on the two-row log [no-trade, executed], `trade_performance_stats`
raises IndexError instead of returning stats: the single winning row has
DataFrame label 1, `idxmax` returns that label, and `.iloc[1]` on the
one-row wins frame is out of bounds. -/
theorem c7_stats_raises :
    trade_performance_stats [skippedRow, executedRow] =
      .error "IndexError: single positional indexer is out-of-bounds" := by
  rfl

/-- One OHLCV bar (src/data/data_client.py row).  The open field is named
`op` because `open` is reserved in Lean. -/
structure Bar where
  timestamp : ℕ
  op : ℚ
  high : ℚ
  low : ℚ
  close : ℚ
  volume : ℚ
deriving DecidableEq

instance : Inhabited Bar := ⟨⟨0, 0, 0, 0, 0, 0⟩⟩

/-- `ta.sma(xs, length=k)` at row `i`: mean of the window ending at `i`,
`none` (NaN) while the window is incomplete — pandas-ta returns an all-NaN
column when the series is shorter than `k`, which coincides with this
per-row condition. -/
def smaAt (xs : List ℚ) (k i : ℕ) : Option ℚ :=
  if k ≤ i + 1 ∧ i < xs.length ∧ 0 < k then
    some (((xs.take (i + 1)).drop (i + 1 - k)).sum / (k : ℚ))
  else none

/-- The EMA smoothing factor `2/(k+1)`. -/
def emaAlpha (k : ℕ) : ℚ := 2 / ((k : ℚ) + 1)

/-- `ta.ema(xs, length=k)` at row `i` (pandas-ta default `sma=True`): NaN
before row `k-1`, the k-window SMA seed at row `k-1`, then the exponential
recursion. -/
def emaAt (xs : List ℚ) (k : ℕ) : ℕ → Option ℚ
  | 0 => if k = 1 then smaAt xs 1 0 else none
  | i + 1 =>
      if i + 2 < k then none
      else if i + 2 = k then smaAt xs k (i + 1)
      else
        match xs.get? (i + 1), emaAt xs k i with
        | some x, some prev => some (emaAlpha k * x + (1 - emaAlpha k) * prev)
        | _, _ => none

/-- `close.diff()` at row `j` (only used for `j ≥ 1`). -/
def diffAt (xs : List ℚ) (j : ℕ) : ℚ :=
  (xs.get? j).getD 0 - (xs.get? (j - 1)).getD 0

/-- The clipped positive move feeding RSI. -/
def gainAt (xs : List ℚ) (j : ℕ) : ℚ := max (diffAt xs j) 0

/-- The clipped negative move feeding RSI. -/
def lossAt (xs : List ℚ) (j : ℕ) : ℚ := max (-diffAt xs j) 0

/-- Numerator of the pandas `ewm(alpha=1/14, adjust=True)` weighted average
of `f` over the diffs `1..i`: `Σ_j (13/14)^(i-1-j) · f (j+1)`. -/
def rmaNum (f : ℕ → ℚ) (i : ℕ) : ℚ :=
  ∑ j ∈ Finset.range i, ((13 : ℚ) / 14) ^ (i - 1 - j) * f (j + 1)

/-- Denominator of the same weighted average: `Σ_t (13/14)^t`. -/
def rmaDen (i : ℕ) : ℚ :=
  ∑ j ∈ Finset.range i, ((13 : ℚ) / 14) ^ j

/-- `ta.rsi(xs, length=14)` at row `i`:
`100 · avg_gain / (avg_gain + avg_loss)`, NaN before 14 valid diffs
(`min_periods`), and NaN (`0/0` in floats) when every diff in scope is zero. -/
def rsiAt (xs : List ℚ) (i : ℕ) : Option ℚ :=
  if 14 ≤ i ∧ i < xs.length then
    if rmaNum (gainAt xs) i / rmaDen i + rmaNum (lossAt xs) i / rmaDen i = 0 then none
    else some (100 * (rmaNum (gainAt xs) i / rmaDen i) /
      (rmaNum (gainAt xs) i / rmaDen i + rmaNum (lossAt xs) i / rmaDen i))
  else none

/-- `ta.macd(xs)` line at row `i`: EMA12 minus EMA26. -/
def macdAt (xs : List ℚ) (i : ℕ) : Option ℚ :=
  match emaAt xs 12 i, emaAt xs 26 i with
  | some f, some sl => some (f - sl)
  | _, _ => none

/-- The MACD signal line: pandas `ewm(span=9, adjust=False)` over the MACD
line started at its first valid row 25 (the SMA seed of pandas-ta's `ema`
falls on the NaN prefix, so the ewm stream simply starts at the first
non-NaN value). -/
def macdSignalAt (xs : List ℚ) : ℕ → Option ℚ
  | 0 => none
  | i + 1 =>
      if i + 1 < 25 then none
      else if i + 1 = 25 then macdAt xs 25
      else
        match macdAt xs (i + 1), macdSignalAt xs i with
        | some m, some prev => some (1 / 5 * m + 4 / 5 * prev)
        | _, _ => none

/-- The MACD histogram: line minus signal. -/
def macdHistAt (xs : List ℚ) (i : ℕ) : Option ℚ :=
  match macdAt xs i, macdSignalAt xs i with
  | some m, some sg => some (m - sg)
  | _, _ => none

/-- Sample variance (ddof=1) of the 20-window ending at `i`, feeding the
Bollinger band width. -/
def bbVarAt (xs : List ℚ) (i : ℕ) : Option ℚ :=
  if 20 ≤ i + 1 ∧ i < xs.length then
    some ((((xs.take (i + 1)).drop (i + 1 - 20)).map
      (fun x => (x - ((xs.take (i + 1)).drop (i + 1 - 20)).sum / 20) ^ 2)).sum / 19)
  else none

/-- `ta.bbands(xs, length=20, std=2)` upper band at row `i`.  The true band
value `mean + 2·σ` is irrational in general, so the embedding carries the
pair `(mean, (2σ)²) = (mean, 4·variance)`; its definedness (all any claim
inspects) matches the float column exactly. -/
def bbUpperAt (xs : List ℚ) (i : ℕ) : Option (ℚ × ℚ) :=
  match smaAt xs 20 i, bbVarAt xs i with
  | some m, some v => some (m, 4 * v)
  | _, _ => none

/-- Lower band, carried as `(mean, (2σ)²)` likewise. -/
def bbLowerAt (xs : List ℚ) (i : ℕ) : Option (ℚ × ℚ) :=
  match smaAt xs 20 i, bbVarAt xs i with
  | some m, some v => some (m, 4 * v)
  | _, _ => none

/-- The indicator columns `add_indicators` adds to the DataFrame. -/
structure IndicatorSet where
  sma50 : Option ℚ
  ema50 : Option ℚ
  sma20 : Option ℚ
  ema20 : Option ℚ
  rsi14 : Option ℚ
  macd : Option ℚ
  macdSignal : Option ℚ
  macdHist : Option ℚ
  bbUpper : Option (ℚ × ℚ)
  bbMiddle : Option ℚ
  bbLower : Option (ℚ × ℚ)
  volSma20 : Option ℚ

/-- All indicator columns at row `i`. -/
def indicatorSetAt (closes vols : List ℚ) (i : ℕ) : IndicatorSet :=
  { sma50 := smaAt closes 50 i
    ema50 := emaAt closes 50 i
    sma20 := smaAt closes 20 i
    ema20 := emaAt closes 20 i
    rsi14 := rsiAt closes i
    macd := macdAt closes i
    macdSignal := macdSignalAt closes i
    macdHist := macdHistAt closes i
    bbUpper := bbUpperAt closes i
    bbMiddle := smaAt closes 20 i
    bbLower := bbLowerAt closes i
    volSma20 := smaAt vols 20 i }

/-- `df.dropna()` keeps a row iff every column is non-NaN. -/
def rowComplete (s : IndicatorSet) : Bool :=
  s.sma50.isSome && s.ema50.isSome && s.sma20.isSome && s.ema20.isSome &&
  s.rsi14.isSome && s.macd.isSome && s.macdSignal.isSome && s.macdHist.isSome &&
  s.bbUpper.isSome && s.bbMiddle.isSome && s.bbLower.isSome && s.volSma20.isSome

/-- The full indicator frame before `dropna`, one entry per bar. -/
def allRows (bars : List Bar) : List (Bar × IndicatorSet) :=
  (List.range bars.length).map fun i =>
    ((bars.get? i).getD default,
      indicatorSetAt (bars.map (·.close)) (bars.map (·.volume)) i)

/-- src/trading/indicators.py `add_indicators`: add every column, then
`dropna().reset_index(drop=True)`.  With fewer than 26 bars `ta.macd`
returns `None` (its `verify_series` minimum) and the subscript
`macd['MACD_12_26_9']` raises a TypeError; no `InsufficientHistory` error
exists anywhere in the module. -/
def add_indicators (bars : List Bar) : Except String (List (Bar × IndicatorSet)) :=
  if bars.length < 26 then
    .error "TypeError: NoneType object is not subscriptable"
  else
    .ok ((allRows bars).filter (fun r => rowComplete r.2))

/-- The close of the last fetched bar (0 when there are no bars). -/
def lastCloseD (bars : List Bar) : ℚ :=
  ((bars.getLast?).map (·.close)).getD 0

/-- `df.tail(n)`. -/
def tailRows {α : Type _} (n : ℕ) (l : List α) : List α :=
  l.drop (l.length - n)

/-- The compact projection `summarize_for_ai` sends to the Decision Port
(src/trading/indicators.py lines 45 to 63): last `bars` aligned rows,
prices and indicators rounded to 2 decimals, volume to an integer.  After
`dropna` every indicator cell is present, so the `getD 0` defaults are never
exercised on aligned input; the Bollinger columns are carried as their
`(mean, (2σ)²)` pairs (see `bbUpperAt`). -/
structure MarketSummary where
  close : List ℚ
  rsi : List ℚ
  macd : List ℚ
  macd_signal : List ℚ
  bb_upper : List (ℚ × ℚ)
  bb_lower : List (ℚ × ℚ)
  sma20 : List ℚ
  sma50 : List ℚ
  ema20 : List ℚ
  ema50 : List ℚ
  volume : List ℤ
  timestamp : List ℕ

/-- src/trading/indicators.py `summarize_for_ai`.  It only shapes the prompt
for the external Decision Port and cannot raise, so the cycle embeddings do
not thread it. -/
def summarize_for_ai (rows : List (Bar × IndicatorSet)) (bars : ℕ) : MarketSummary :=
  { close := (tailRows bars rows).map fun r => pyRound2 r.1.close
    rsi := (tailRows bars rows).map fun r => pyRound2 (r.2.rsi14.getD 0)
    macd := (tailRows bars rows).map fun r => pyRound2 (r.2.macd.getD 0)
    macd_signal := (tailRows bars rows).map fun r => pyRound2 (r.2.macdSignal.getD 0)
    bb_upper := (tailRows bars rows).map fun r => (r.2.bbUpper.getD (0, 0))
    bb_lower := (tailRows bars rows).map fun r => (r.2.bbLower.getD (0, 0))
    sma20 := (tailRows bars rows).map fun r => pyRound2 (r.2.sma20.getD 0)
    sma50 := (tailRows bars rows).map fun r => pyRound2 (r.2.sma50.getD 0)
    ema20 := (tailRows bars rows).map fun r => pyRound2 (r.2.ema20.getD 0)
    ema50 := (tailRows bars rows).map fun r => pyRound2 (r.2.ema50.getD 0)
    volume := (tailRows bars rows).map fun r => pyRoundInt r.1.volume
    timestamp := (tailRows bars rows).map fun r => r.1.timestamp }

theorem get?_isSome_of_lt {α : Type _} (xs : List α) (i : ℕ) (h : i < xs.length) :
    (xs.get? i).isSome = true := by
  rw [List.get?_eq_get h]
  rfl

theorem smaAt_isSome_iff (xs : List ℚ) (k i : ℕ) :
    (smaAt xs k i).isSome = true ↔ (k ≤ i + 1 ∧ i < xs.length ∧ 0 < k) := by
  unfold smaAt
  split <;> simp_all

theorem emaAt_isSome (xs : List ℚ) (k : ℕ) (hk : 0 < k) (i : ℕ)
    (h1 : k ≤ i + 1) (h2 : i < xs.length) : (emaAt xs k i).isSome = true := by
  revert h1 h2
  induction i with
  | zero =>
      intro h1 h2
      have hk1 : k = 1 := by omega
      subst hk1
      rw [show emaAt xs 1 0 = smaAt xs 1 0 from rfl, smaAt_isSome_iff]
      exact ⟨by omega, h2, by omega⟩
  | succ i ih =>
      intro h1 h2
      by_cases hc2 : i + 2 = k
      · simp only [emaAt]
        rw [if_neg (by omega), if_pos hc2]
        rw [smaAt_isSome_iff]
        exact ⟨by omega, h2, hk⟩
      · obtain ⟨x, hx⟩ := Option.isSome_iff_exists.mp
          (get?_isSome_of_lt xs (i + 1) h2)
        obtain ⟨p, hp⟩ := Option.isSome_iff_exists.mp
          (ih (by omega) (by omega))
        simp only [emaAt]
        rw [if_neg (by omega), if_neg hc2, hx, hp]
        rfl

theorem rmaDen_pos (i : ℕ) (hi : 0 < i) : 0 < rmaDen i := by
  unfold rmaDen
  apply Finset.sum_pos
  · intro j _
    positivity
  · exact ⟨0, Finset.mem_range.mpr hi⟩

theorem rmaNum_nonneg (f : ℕ → ℚ) (i : ℕ) (hf : ∀ j, 0 ≤ f j) :
    0 ≤ rmaNum f i := by
  unfold rmaNum
  apply Finset.sum_nonneg
  intro j _
  exact mul_nonneg (by positivity) (hf _)

theorem rmaNum_pos (f : ℕ → ℚ) (i j₀ : ℕ) (hf : ∀ j, 0 ≤ f j)
    (h1 : 1 ≤ j₀) (h2 : j₀ ≤ i) (hpos : 0 < f j₀) : 0 < rmaNum f i := by
  unfold rmaNum
  apply Finset.sum_pos'
  · intro j _
    exact mul_nonneg (by positivity) (hf _)
  · refine ⟨j₀ - 1, Finset.mem_range.mpr (by omega), ?_⟩
    have he : j₀ - 1 + 1 = j₀ := by omega
    rw [he]
    exact mul_pos (by positivity) hpos

theorem gainAt_nonneg (xs : List ℚ) (j : ℕ) : 0 ≤ gainAt xs j :=
  le_max_right _ _

theorem lossAt_nonneg (xs : List ℚ) (j : ℕ) : 0 ≤ lossAt xs j :=
  le_max_right _ _

theorem rsiAt_isSome (xs : List ℚ) (i : ℕ) (h14 : 14 ≤ i) (hlen : i < xs.length)
    (hd : ∃ j, 1 ≤ j ∧ j ≤ i ∧ diffAt xs j ≠ 0) : (rsiAt xs i).isSome = true := by
  obtain ⟨j₀, hj1, hj2, hj3⟩ := hd
  have hden := rmaDen_pos i (by omega)
  have hA : 0 ≤ rmaNum (gainAt xs) i := rmaNum_nonneg _ _ (gainAt_nonneg xs)
  have hB : 0 ≤ rmaNum (lossAt xs) i := rmaNum_nonneg _ _ (lossAt_nonneg xs)
  have hAB : 0 < rmaNum (gainAt xs) i / rmaDen i + rmaNum (lossAt xs) i / rmaDen i := by
    rcases lt_or_gt_of_ne hj3 with hlt | hgt
    · have hBpos : 0 < rmaNum (lossAt xs) i :=
        rmaNum_pos _ i j₀ (lossAt_nonneg xs) hj1 hj2
          (lt_max_iff.mpr (Or.inl (by linarith)))
      have := div_pos hBpos hden
      have := div_nonneg hA hden.le
      linarith
    · have hApos : 0 < rmaNum (gainAt xs) i :=
        rmaNum_pos _ i j₀ (gainAt_nonneg xs) hj1 hj2
          (lt_max_iff.mpr (Or.inl hgt))
      have := div_pos hApos hden
      have := div_nonneg hB hden.le
      linarith
  unfold rsiAt
  rw [if_pos ⟨h14, hlen⟩, if_neg (ne_of_gt hAB)]
  rfl

theorem rsiAt_isSome_exists (xs : List ℚ) (i : ℕ)
    (h : (rsiAt xs i).isSome = true) :
    14 ≤ i ∧ i < xs.length ∧ ∃ j, 1 ≤ j ∧ j ≤ i ∧ diffAt xs j ≠ 0 := by
  unfold rsiAt at h
  by_cases hc : 14 ≤ i ∧ i < xs.length
  · rw [if_pos hc] at h
    refine ⟨hc.1, hc.2, ?_⟩
    by_cases hz : rmaNum (gainAt xs) i / rmaDen i + rmaNum (lossAt xs) i / rmaDen i = 0
    · rw [if_pos hz] at h
      simp at h
    · by_contra hcon
      push_neg at hcon
      apply hz
      have hg : rmaNum (gainAt xs) i = 0 := by
        apply Finset.sum_eq_zero
        intro j hj
        have hj' := Finset.mem_range.mp hj
        have hz' := hcon (j + 1) (by omega) (by omega)
        unfold gainAt
        rw [hz']
        simp
      have hl : rmaNum (lossAt xs) i = 0 := by
        apply Finset.sum_eq_zero
        intro j hj
        have hj' := Finset.mem_range.mp hj
        have hz' := hcon (j + 1) (by omega) (by omega)
        unfold lossAt
        rw [hz']
        simp
      rw [hg, hl]
      simp
  · rw [if_neg hc] at h
    simp at h

theorem macdAt_isSome (xs : List ℚ) (i : ℕ) (h : 25 ≤ i) (hlen : i < xs.length) :
    (macdAt xs i).isSome = true := by
  obtain ⟨f, hf⟩ := Option.isSome_iff_exists.mp
    (emaAt_isSome xs 12 (by omega) i (by omega) hlen)
  obtain ⟨sl, hs⟩ := Option.isSome_iff_exists.mp
    (emaAt_isSome xs 26 (by omega) i (by omega) hlen)
  unfold macdAt
  rw [hf, hs]
  rfl

theorem macdSignalAt_isSome (xs : List ℚ) (i : ℕ) (h : 25 ≤ i)
    (hlen : i < xs.length) : (macdSignalAt xs i).isSome = true := by
  revert h hlen
  induction i with
  | zero => intro h _; omega
  | succ i ih =>
      intro h hlen
      by_cases h25 : i + 1 = 25
      · simp only [macdSignalAt]
        rw [if_neg (by omega), if_pos h25]
        exact macdAt_isSome xs 25 (by omega) (by omega)
      · obtain ⟨m, hm⟩ := Option.isSome_iff_exists.mp
          (macdAt_isSome xs (i + 1) (by omega) hlen)
        obtain ⟨p, hp⟩ := Option.isSome_iff_exists.mp
          (ih (by omega) (by omega))
        simp only [macdSignalAt]
        rw [if_neg (by omega), if_neg h25, hm, hp]
        rfl

theorem macdHistAt_isSome (xs : List ℚ) (i : ℕ) (h : 25 ≤ i)
    (hlen : i < xs.length) : (macdHistAt xs i).isSome = true := by
  obtain ⟨m, hm⟩ := Option.isSome_iff_exists.mp (macdAt_isSome xs i h hlen)
  obtain ⟨sg, hs⟩ := Option.isSome_iff_exists.mp (macdSignalAt_isSome xs i h hlen)
  unfold macdHistAt
  rw [hm, hs]
  rfl

theorem bbVarAt_isSome_iff (xs : List ℚ) (i : ℕ) :
    (bbVarAt xs i).isSome = true ↔ (20 ≤ i + 1 ∧ i < xs.length) := by
  unfold bbVarAt
  split <;> simp_all

theorem bbUpperAt_isSome (xs : List ℚ) (i : ℕ) (h : 19 ≤ i) (hlen : i < xs.length) :
    (bbUpperAt xs i).isSome = true := by
  obtain ⟨m, hm⟩ := Option.isSome_iff_exists.mp
    ((smaAt_isSome_iff xs 20 i).mpr ⟨by omega, hlen, by omega⟩)
  obtain ⟨v, hv⟩ := Option.isSome_iff_exists.mp
    ((bbVarAt_isSome_iff xs i).mpr ⟨by omega, hlen⟩)
  unfold bbUpperAt
  rw [hm, hv]
  rfl

theorem bbLowerAt_isSome (xs : List ℚ) (i : ℕ) (h : 19 ≤ i) (hlen : i < xs.length) :
    (bbLowerAt xs i).isSome = true := by
  obtain ⟨m, hm⟩ := Option.isSome_iff_exists.mp
    ((smaAt_isSome_iff xs 20 i).mpr ⟨by omega, hlen, by omega⟩)
  obtain ⟨v, hv⟩ := Option.isSome_iff_exists.mp
    ((bbVarAt_isSome_iff xs i).mpr ⟨by omega, hlen⟩)
  unfold bbLowerAt
  rw [hm, hv]
  rfl

theorem rowComplete_of (closes vols : List ℚ) (i : ℕ)
    (h49 : 49 ≤ i) (hc : i < closes.length) (hv : i < vols.length)
    (hd : ∃ j, 1 ≤ j ∧ j ≤ i ∧ diffAt closes j ≠ 0) :
    rowComplete (indicatorSetAt closes vols i) = true := by
  unfold rowComplete indicatorSetAt
  simp only [Bool.and_eq_true]
  refine ⟨⟨⟨⟨⟨⟨⟨⟨⟨⟨⟨?_, ?_⟩, ?_⟩, ?_⟩, ?_⟩, ?_⟩, ?_⟩, ?_⟩, ?_⟩, ?_⟩, ?_⟩, ?_⟩
  · exact (smaAt_isSome_iff closes 50 i).mpr ⟨by omega, hc, by omega⟩
  · exact emaAt_isSome closes 50 (by omega) i (by omega) hc
  · exact (smaAt_isSome_iff closes 20 i).mpr ⟨by omega, hc, by omega⟩
  · exact emaAt_isSome closes 20 (by omega) i (by omega) hc
  · exact rsiAt_isSome closes i (by omega) hc hd
  · exact macdAt_isSome closes i (by omega) hc
  · exact macdSignalAt_isSome closes i (by omega) hc
  · exact macdHistAt_isSome closes i (by omega) hc
  · exact bbUpperAt_isSome closes i (by omega) hc
  · exact (smaAt_isSome_iff closes 20 i).mpr ⟨by omega, hc, by omega⟩
  · exact bbLowerAt_isSome closes i (by omega) hc
  · exact (smaAt_isSome_iff vols 20 i).mpr ⟨by omega, hv, by omega⟩

theorem rowComplete_extract (closes vols : List ℚ) (i : ℕ)
    (h : rowComplete (indicatorSetAt closes vols i) = true) :
    49 ≤ i ∧ i < closes.length ∧ ∃ j, 1 ≤ j ∧ j ≤ i ∧ diffAt closes j ≠ 0 := by
  unfold rowComplete indicatorSetAt at h
  simp only [Bool.and_eq_true] at h
  obtain ⟨⟨⟨⟨⟨⟨⟨⟨⟨⟨⟨h50, _⟩, _⟩, _⟩, hrsi⟩, _⟩, _⟩, _⟩, _⟩, _⟩, _⟩, _⟩ := h
  obtain ⟨hk, hlen, _⟩ := (smaAt_isSome_iff closes 50 i).mp h50
  obtain ⟨_, _, hd⟩ := rsiAt_isSome_exists closes i hrsi
  exact ⟨by omega, hlen, hd⟩

theorem getLast?_filter {α : Type _} (l : List α) (p : α → Bool) (x : α)
    (hx : l.getLast? = some x) (hp : p x = true) :
    (l.filter p).getLast? = some x := by
  induction l with
  | nil => simp at hx
  | cons a t ih =>
      cases t with
      | nil =>
          simp only [List.getLast?_singleton, Option.some.injEq] at hx
          subst hx
          simp [List.filter_cons, hp]
      | cons b t2 =>
          rw [List.getLast?_cons_cons] at hx
          have hrec := ih hx
          cases hpa : p a with
          | false => simpa [List.filter_cons, hpa] using hrec
          | true =>
              rw [List.filter_cons_of_pos (by simp [hpa])]
              cases hxs : (b :: t2).filter p with
              | nil => rw [hxs] at hrec; simp at hrec
              | cons c u =>
                  rw [hxs] at hrec
                  rw [List.getLast?_cons_cons]
                  exact hrec

set_option maxHeartbeats 2000000 in
theorem aligned_last_close (bars : List Bar) (rows : List (Bar × IndicatorSet))
    (h : add_indicators bars = .ok rows) (hne : rows ≠ []) :
    (rows.getLast?).map (fun r => r.1.close) = some (lastCloseD bars) := by
  unfold add_indicators at h
  by_cases h26 : bars.length < 26
  · rw [if_pos h26] at h
    simp at h
  · rw [if_neg h26] at h
    simp only [Except.ok.injEq] at h
    obtain ⟨r, hr⟩ := List.exists_mem_of_ne_nil rows hne
    rw [← h] at hr
    obtain ⟨hmem, hcomp⟩ := List.mem_filter.mp hr
    unfold allRows at hmem
    obtain ⟨i, hi, hfi⟩ := List.mem_map.mp hmem
    have hilt : i < bars.length := List.mem_range.mp hi
    have hcompi : rowComplete (indicatorSetAt (bars.map (·.close)) (bars.map (·.volume)) i)
        = true := by
      rw [← hfi] at hcomp
      exact hcomp
    obtain ⟨h49, hlen, hd⟩ := rowComplete_extract _ _ i hcompi
    have hn : 0 < bars.length := by omega
    obtain ⟨m, hm⟩ : ∃ m, bars.length = m + 1 := ⟨bars.length - 1, by omega⟩
    have hlastc : rowComplete (indicatorSetAt (bars.map (·.close)) (bars.map (·.volume)) m)
        = true := by
      apply rowComplete_of
      · omega
      · simp only [List.length_map]; omega
      · simp only [List.length_map]; omega
      · obtain ⟨j, hj1, hj2, hj3⟩ := hd
        exact ⟨j, hj1, by omega, hj3⟩
    have hallLast : (allRows bars).getLast? =
        some ((bars.get? m).getD default,
          indicatorSetAt (bars.map (·.close)) (bars.map (·.volume)) m) := by
      unfold allRows
      rw [hm, List.range_succ, List.map_append]
      simp
    have hfiltLast : ((allRows bars).filter (fun r => rowComplete r.2)).getLast? =
        some ((bars.get? m).getD default,
          indicatorSetAt (bars.map (·.close)) (bars.map (·.volume)) m) :=
      getLast?_filter _ _ _ hallLast hlastc
    rw [← h, hfiltLast]
    obtain ⟨bl, hbl⟩ := Option.isSome_iff_exists.mp
      (get?_isSome_of_lt bars m (by omega))
    have hlast : bars.getLast? = some bl := by
      rw [List.getLast?_eq_getElem?, hm]
      simpa [List.get?_eq_getElem?] using hbl
    unfold lastCloseD
    rw [hlast, hbl]
    rfl

/-- A 50-bar hourly series with strictly rising closes 151..200. -/
def bars50 : List Bar :=
  (List.range 50).map fun i => ⟨i, 0, 0, 0, (151 : ℚ) + i, 1000⟩

/-- The aligned length `add_indicators` produces (0 on error). -/
def alignedLen (bars : List Bar) : ℕ :=
  match add_indicators bars with
  | .ok r => r.length
  | .error _ => 0

/-- Whether `add_indicators` returned rather than raised. -/
def indicatorsOk (bars : List Bar) : Bool :=
  match add_indicators bars with
  | .ok _ => true
  | .error _ => false

set_option maxRecDepth 40000 in
set_option maxHeartbeats 1600000 in
/-- C5 counterexample: 50 bars are fewer than the claimed minimum window of
51 (largest length 50, plus one), yet the computation neither raises any
error nor returns an empty alignment — it returns one aligned row. -/
theorem c5_counterexample :
    bars50.length = 50 ∧ indicatorsOk bars50 = true ∧ alignedLen bars50 = 1 := by
  refine ⟨by decide, by decide, by decide⟩

/-- C5 amended: no `InsufficientHistory` error exists.  Below 26 bars the
computation raises a generic TypeError (a pandas-ta `None` subscript); from
26 up to 49 bars it returns an empty aligned output without raising; and the
aligned output never exceeds the input length. -/
theorem c5_amended (bars : List Bar) :
    (bars.length < 26 →
      add_indicators bars = .error "TypeError: NoneType object is not subscriptable") ∧
    (26 ≤ bars.length → bars.length < 50 → add_indicators bars = .ok []) ∧
    (∀ rows, add_indicators bars = .ok rows → rows.length ≤ bars.length) := by
  refine ⟨?_, ?_, ?_⟩
  · intro h
    unfold add_indicators
    rw [if_pos h]
  · intro h26 h50
    unfold add_indicators
    rw [if_neg (by omega)]
    congr 1
    rw [List.filter_eq_nil_iff]
    intro r hr
    unfold allRows at hr
    obtain ⟨i, hi, hfi⟩ := List.mem_map.mp hr
    have hilt : i < bars.length := List.mem_range.mp hi
    intro hcomp
    rw [← hfi] at hcomp
    obtain ⟨h49, _, _⟩ := rowComplete_extract _ _ i hcomp
    omega
  · intro rows h
    unfold add_indicators at h
    by_cases h26 : bars.length < 26
    · rw [if_pos h26] at h
      simp at h
    · rw [if_neg h26] at h
      simp only [Except.ok.injEq] at h
      rw [← h]
      calc ((allRows bars).filter _).length ≤ (allRows bars).length :=
            List.length_filter_le _ _
        _ = bars.length := by unfold allRows; simp

/-- Witness for C5 amended at a concrete 30-bar input. -/
theorem c5_amended_witness :
    add_indicators ((List.range 30).map fun i => ⟨i, 0, 0, 0, (100 : ℚ) + i, 1000⟩)
      = .ok [] :=
  (c5_amended ((List.range 30).map fun i => ⟨i, 0, 0, 0, (100 : ℚ) + i, 1000⟩)).2.1
    (by decide) (by decide)

/-- Python `str.lower()`, charwise (ASCII side strings). -/
def strLower (s : String) : String :=
  ⟨s.data.map Char.toLower⟩

/-- The broker account record; `get_account_info` returns `None` on failure
(modelled as the `none` of the `account` field of the cycle environment). -/
structure Account where
  equity : ℚ
deriving DecidableEq

/-- `x in ("BUY", "SELL")` on `dict.get("recommendation")` (no default):
true only for those exact strings. -/
def jIsBuySell : Option JVal → Bool
  | some (.str s) => s == "BUY" || s == "SELL"
  | _ => false

/-- Python `j == s` for a JSON value against a string literal. -/
def jStrEq (j : JVal) (s : String) : Bool :=
  match j with
  | .str t => t == s
  | _ => false

/-- The string payload of a JSON value (used only where the source already
guaranteed a string). -/
def jvalStr : JVal → String
  | .str s => s
  | _ => ""

/-- `jvalStr` through an optional lookup. -/
def jStrD (j : Option JVal) : String :=
  (j.map jvalStr).getD ""

/-- Everything one run of src/trading/strategy.py `trading_cycle` consumes
from the outside world: the fetched bars, the raw Decision Port response
(with the abstract `json.loads`), the account snapshot and the dict
`submit_market_order` would hand back. -/
structure CycleEnv where
  asset : String
  bars : List Bar
  parse : String → Option JDict
  rawResponse : String
  account : Option Account
  orderOutcome : ExecDict

/-- A market order submitted through the Execution Port. -/
structure Order where
  symbol : String
  qty : ℚ
  side : String
deriving DecidableEq

/-- What `trading_cycle` returns: the trade-record dict (with the observable
of whether reflection was invoked this cycle) or the caught-exception error
dict. -/
inductive CycleResult where
  | record (decision : JDict) (executed : ExecDict) (reflected : Bool)
  | failure (msg : String)

/-- True on the `\x7b"error": ...\x7d` return. -/
def resultIsFailure : CycleResult → Bool
  | .failure _ => true
  | .record _ _ _ => false

/-- A cycle run observed from outside: result, the asset's CSV ledger after
the run, and the orders submitted during it. -/
structure CycleOutcome where
  result : CycleResult
  ledger : List LogRow
  orders : List Order

/-- Step 5 of src/trading/strategy.py (lines 41 to 50): trade when the
recommendation is BUY or SELL and `float(position_sizing) > 0`, sizing by
`equity * sizing / 100 / last_close` rounded to 6 decimals.  Exceptions
(`float` on a bad sizing value, a `None` account, `iloc[-1]` on an empty
aligned frame) propagate; `submit_market_order` itself never raises (the
broker catches and returns an error dict). -/
def execStepSrc (env : CycleEnv) (rows : List (Bar × IndicatorSet)) (d : JDict) :
    Except String (ExecDict × List Order) :=
  if jIsBuySell (d.lookup "recommendation") then
    match pyFloat ((d.lookup "position_sizing").getD (.num 0)) with
    | .error e => .error e
    | .ok s =>
        if 0 < s then
          match env.account with
          | none => .error "AttributeError: NoneType object has no attribute equity"
          | some acct =>
              match rows.getLast? with
              | none => .error "IndexError: single positional indexer is out-of-bounds"
              | some r =>
                  .ok (env.orderOutcome,
                    [⟨env.asset, pyRound6 (acct.equity * s / 100 / r.1.close),
                      jStrD (d.lookup "recommendation")⟩])
        else .ok (noTradeExec, [])
  else .ok (noTradeExec, [])

/-- src/trading/strategy.py `TradingStrategy.trading_cycle`.  The
`summarize_for_ai` step cannot raise and its output only feeds the external
prompt, so it does not appear in the control flow; the Decision Port's raw
response is the environment's `rawResponse`.  Note the early return on a
decision-level error (line 38) happens before any logging, and the
reflection check (lines 61 to 67) runs after the ledger append, so a failure
there leaves the appended row in place. -/
def trading_cycle (env : CycleEnv) (ledger : List LogRow) (reflection_interval : ℕ) :
    CycleOutcome :=
  if env.bars.isEmpty then ⟨.failure "No data received for asset.", ledger, []⟩
  else
    match add_indicators env.bars with
    | .error e => ⟨.failure e, ledger, []⟩
    | .ok rows =>
        if ((analyze_market_with_openai env.parse env.rawResponse).lookup "error").isSome then
          ⟨.failure (jStrD ((analyze_market_with_openai env.parse env.rawResponse).lookup
            "error")), ledger, []⟩
        else
          match execStepSrc env rows (analyze_market_with_openai env.parse env.rawResponse) with
          | .error e => ⟨.failure e, ledger, []⟩
          | .ok (executed, orders) =>
              match tradeCountE (ledger ++
                  [log_trade env.asset (analyze_market_with_openai env.parse env.rawResponse)
                    executed]) with
              | .error e =>
                  ⟨.failure e,
                    ledger ++
                      [log_trade env.asset
                        (analyze_market_with_openai env.parse env.rawResponse) executed],
                    orders⟩
              | .ok cnt =>
                  if reflection_interval = 0 then
                    ⟨.failure "ZeroDivisionError: integer modulo by zero",
                      ledger ++
                        [log_trade env.asset
                          (analyze_market_with_openai env.parse env.rawResponse) executed],
                      orders⟩
                  else
                    ⟨.record (analyze_market_with_openai env.parse env.rawResponse) executed
                        (cnt % reflection_interval == 0 && decide (0 < cnt)),
                      ledger ++
                        [log_trade env.asset
                          (analyze_market_with_openai env.parse env.rawResponse) executed],
                      orders⟩

/-- The guard conditions under which a run of `trading_cycle` reaches the
`log_trade` call: bars present, indicators did not raise, the decision dict
carries no error key, and the execution step did not raise. -/
def reachesLog (env : CycleEnv) : Bool :=
  if env.bars.isEmpty then false
  else
    match add_indicators env.bars with
    | .error _ => false
    | .ok rows =>
        if ((analyze_market_with_openai env.parse env.rawResponse).lookup "error").isSome then
          false
        else
          match execStepSrc env rows (analyze_market_with_openai env.parse env.rawResponse) with
          | .error _ => false
          | .ok _ => true

/-- C1: a cycle appends exactly one row to the asset's ledger when and only
when it reaches the logging step; every other cycle leaves the ledger
untouched. -/
theorem c1_one_record_per_cycle (env : CycleEnv) (ledger : List LogRow) (N : ℕ) :
    (trading_cycle env ledger N).ledger.length =
      ledger.length + (if reachesLog env = true then 1 else 0) := by
  unfold trading_cycle reachesLog
  repeat' split
  all_goals simp_all [List.length_append]

/-- 26 hourly bars with constant closes (enough for the pipeline not to
raise, not enough for any aligned row). -/
def bars26 : List Bar :=
  (List.range 26).map fun i => ⟨i, 0, 0, 0, 100, 1000⟩

/-- Environment for a cycle whose Decision Port response contains no JSON
object at all. -/
def envC2 : CycleEnv :=
  { asset := "BTC/USD"
    bars := bars26
    parse := fun _ => none
    rawResponse := "The market looks uncertain today."
    account := none
    orderOutcome := noTradeExec }

set_option maxRecDepth 40000 in
/-- C2 counterexample: on a response with no parsable JSON the cycle returns
the error dict without raising, but appends NO TradeRecord at all — in
particular no HOLD-0 record. -/
theorem c2_counterexample :
    (trading_cycle envC2 [] 10).ledger.isEmpty = true ∧
    resultIsFailure (trading_cycle envC2 [] 10).result = true := by
  exact ⟨by decide, by decide⟩

/-- The Decision Port response text contains no parsable JSON object: either
no brace pair, or `json.loads` fails on the extracted slice. -/
def noParsableJson (parse : String → Option JDict) (raw : String) : Bool :=
  match extractJsonStr raw with
  | none => true
  | some js => (parse js).isNone

/-- C2 amended: when the Decision Port response contains no parsable JSON
object, the cycle completes without raising, returning the error dict, and
the ledger is unchanged — the malformed response is not normalized to a
HOLD-0 TradeRecord (defaults are only filled into successfully parsed
JSON). -/
theorem c2_amended (env : CycleEnv) (ledger : List LogRow) (N : ℕ)
    (hb : env.bars.isEmpty = false)
    (hok : (add_indicators env.bars).isOk = true)
    (hnp : noParsableJson env.parse env.rawResponse = true) :
    (trading_cycle env ledger N).ledger = ledger ∧
    resultIsFailure (trading_cycle env ledger N).result = true := by
  have herr : ((analyze_market_with_openai env.parse env.rawResponse).lookup
      "error").isSome = true := by
    unfold noParsableJson at hnp
    cases hx : extractJsonStr env.rawResponse with
    | none => simp [analyze_market_with_openai, hx, List.lookup]
    | some js =>
        simp only [hx] at hnp
        cases hp : env.parse js with
        | none => simp [analyze_market_with_openai, hx, hp, List.lookup]
        | some dd =>
            rw [hp] at hnp
            simp at hnp
  unfold trading_cycle
  simp only [hb, Bool.false_eq_true, if_false]
  cases hi : add_indicators env.bars with
  | error e => rw [hi] at hok; simp [Except.isOk, Except.toBool] at hok
  | ok rows =>
      simp [hi, herr, resultIsFailure]

set_option maxRecDepth 40000 in
/-- Witness for C2 amended at the concrete malformed-response environment. -/
theorem c2_amended_witness :
    (trading_cycle envC2 [] 10).ledger = [] ∧
    resultIsFailure (trading_cycle envC2 [] 10).result = true :=
  c2_amended envC2 [] 10 (by decide) (by decide) (by decide)

/-- C6: whenever a cycle returns a trade record (rather than an error
descriptor), the reflection step ran exactly when the recomputed trade count
— the length of the ledger after this cycle's append — is a positive
multiple of the reflection interval. -/
theorem c6_reflection_trigger (env : CycleEnv) (ledger : List LogRow) (N : ℕ)
    (d : JDict) (e : ExecDict) (r : Bool) (l2 : List LogRow) (ords : List Order)
    (h : trading_cycle env ledger N = ⟨.record d e r, l2, ords⟩) :
    r = true ↔ (l2.length % N = 0 ∧ 0 < l2.length) := by
  unfold trading_cycle at h
  cases hb : env.bars.isEmpty
  case true => simp only [hb, if_true] at h; simp at h
  case false =>
  simp only [hb, Bool.false_eq_true, if_false] at h
  cases hi : add_indicators env.bars with
  | error er => simp only [hi] at h; simp at h
  | ok rows =>
  simp only [hi] at h
  cases he : ((analyze_market_with_openai env.parse env.rawResponse).lookup "error").isSome
  case true => simp only [he, if_true] at h; simp at h
  case false =>
  simp only [he, Bool.false_eq_true, if_false] at h
  cases hx : execStepSrc env rows (analyze_market_with_openai env.parse env.rawResponse) with
  | error er => simp only [hx] at h; simp at h
  | ok pr =>
  obtain ⟨executed, orders⟩ := pr
  simp only [hx] at h
  cases hc : tradeCountE (ledger ++
      [log_trade env.asset (analyze_market_with_openai env.parse env.rawResponse) executed]) with
  | error er => simp only [hc] at h; simp at h
  | ok cnt =>
  simp only [hc] at h
  cases hn : N == 0
  case true =>
      have : N = 0 := by simpa using hn
      rw [if_pos this] at h
      simp at h
  case false =>
      have hne : ¬N = 0 := by simpa using hn
      rw [if_neg hne] at h
      have hcnt := tradeCountE_eq_length _ cnt hc
      simp only [CycleOutcome.mk.injEq, CycleResult.record.injEq] at h
      obtain ⟨⟨_, _, hr⟩, hl, _⟩ := h
      rw [← hr, ← hl, hcnt]
      simp [Bool.and_eq_true, beq_iff_eq, decide_eq_true_iff]

/-- A `json.loads` returning the empty JSON object. -/
def parseEmptyObj : String → Option JDict := fun _ => some []

/-- The HOLD-0 decision dict: all six defaults over an empty parsed object. -/
def dHold : JDict := setDecisionDefaults []

/-- Environment whose decision is the parsed empty object (HOLD-0 after
defaults). -/
def envC6 : CycleEnv :=
  { asset := "BTC/USD"
    bars := bars26
    parse := parseEmptyObj
    rawResponse := "\x7b\x7d"
    account := none
    orderOutcome := noTradeExec }

/-- Nine already-logged no-trade cycles. -/
def ledger9 : List LogRow :=
  List.replicate 9 (log_trade "BTC/USD" dHold noTradeExec)

set_option maxRecDepth 40000 in
/-- Witness for C6: the tenth completed cycle fires reflection. -/
theorem c6_reflection_trigger_witness :
    (ledger9 ++ [log_trade "BTC/USD" dHold noTradeExec]).length % 10 = 0 ∧
      0 < (ledger9 ++ [log_trade "BTC/USD" dHold noTradeExec]).length :=
  (c6_reflection_trigger envC6 ledger9 10 dHold noTradeExec true
      (ledger9 ++ [log_trade "BTC/USD" dHold noTradeExec]) [] (by rfl)).mp rfl

/-- Everything one run of the position-aware
src/attached_assets/strategy_1753975310049.py `trading_cycle` consumes. -/
structure CycleEnvA where
  asset : String
  positions : List PositionD
  bars : List Bar
  parse : String → Option JDict
  rawResponse : String
  account : Option Account
  orderOutcome : ExecDict

/-- The step-5 decision dict of the attached variant. -/
def decisionOfA (env : CycleEnvA) : JDict :=
  analyze_market_with_openai env.parse env.rawResponse

/-- `action = ai_decision.get("recommendation", "HOLD")`. -/
def actionOfA (env : CycleEnvA) : JVal :=
  ((decisionOfA env).lookup "recommendation").getD (.str "HOLD")

/-- `position_sizing = float(ai_decision.get("position_sizing", 0))`,
evaluated unconditionally at line 95 (so a bad value raises even on HOLD). -/
def sizingOfA (env : CycleEnvA) : Except String ℚ :=
  pyFloat (((decisionOfA env).lookup "position_sizing").getD (.num 0))

/-- `action in ("BUY", "SELL")` for the attached variant (action is the
defaulted value, not the raw lookup). -/
def isBuySellV (act : JVal) : Bool :=
  jStrEq act "BUY" || jStrEq act "SELL"

/-- Step 6 of the attached variant (lines 98 to 117): with an open position,
the only automatic action is a full close (long+SELL → market SELL of
`abs(qty)`; short+BUY → market BUY of `abs(qty)`; anything else no-op).
With no position, BUY/SELL with sizing > 0 opens
`equity * sizing / 100 / last_close` rounded to 6 decimals. -/
def execStepAttached (env : CycleEnvA) (opos : Option PositionD)
    (rows : List (Bar × IndicatorSet)) (act : JVal) (s : ℚ) :
    Except String (ExecDict × List Order) :=
  match opos with
  | some pos =>
      if strLower (pos.side.getD "long") == "long" && jStrEq act "SELL" then
        .ok (env.orderOutcome, [⟨env.asset, |pos.qty.getD 0|, "SELL"⟩])
      else if strLower (pos.side.getD "long") == "short" && jStrEq act "BUY" then
        .ok (env.orderOutcome, [⟨env.asset, |pos.qty.getD 0|, "BUY"⟩])
      else .ok (noTradeExec, [])
  | none =>
      if isBuySellV act && decide (0 < s) then
        match env.account with
        | none => .error "AttributeError: NoneType object has no attribute equity"
        | some acct =>
            match rows.getLast? with
            | none => .error "IndexError: single positional indexer is out-of-bounds"
            | some r =>
                .ok (env.orderOutcome,
                  [⟨env.asset, pyRound6 (acct.equity * s / 100 / r.1.close), jvalStr act⟩])
      else .ok (noTradeExec, [])

/-- strategy_1753975310049.py `TradingStrategy.trading_cycle`.  Note this
variant logs the record TWICE (once through `TradeHistory.record`, once
directly), so its ledger grows by two rows per logged cycle. -/
def trading_cycle_attached (env : CycleEnvA) (ledger : List LogRow)
    (reflection_interval : ℕ) : CycleOutcome :=
  match findOpenPositionE env.positions env.asset with
  | .error e => ⟨.failure e, ledger, []⟩
  | .ok opos =>
      if env.bars.isEmpty then ⟨.failure "No data received for asset.", ledger, []⟩
      else
        match add_indicators env.bars with
        | .error e => ⟨.failure e, ledger, []⟩
        | .ok rows =>
            if ((decisionOfA env).lookup "error").isSome then
              ⟨.failure (jStrD ((decisionOfA env).lookup "error")), ledger, []⟩
            else
              match sizingOfA env with
              | .error e => ⟨.failure e, ledger, []⟩
              | .ok s =>
                  match execStepAttached env opos rows (actionOfA env) s with
                  | .error e => ⟨.failure e, ledger, []⟩
                  | .ok (executed, orders) =>
                      match tradeCountE (ledger ++
                          [log_trade env.asset (decisionOfA env) executed,
                            log_trade env.asset (decisionOfA env) executed]) with
                      | .error e =>
                          ⟨.failure e,
                            ledger ++
                              [log_trade env.asset (decisionOfA env) executed,
                                log_trade env.asset (decisionOfA env) executed],
                            orders⟩
                      | .ok cnt =>
                          if reflection_interval = 0 then
                            ⟨.failure "ZeroDivisionError: integer modulo by zero",
                              ledger ++
                                [log_trade env.asset (decisionOfA env) executed,
                                  log_trade env.asset (decisionOfA env) executed],
                              orders⟩
                          else
                            ⟨.record (decisionOfA env) executed
                                (cnt % reflection_interval == 0 && decide (0 < cnt)),
                              ledger ++
                                [log_trade env.asset (decisionOfA env) executed,
                                  log_trade env.asset (decisionOfA env) executed],
                              orders⟩

/-- The orders one cycle of the attached variant submits (the ledger passed
in and the reflection interval do not influence order submission). -/
def ordersOfA (env : CycleEnvA) : List Order :=
  (trading_cycle_attached env [] 10).orders

theorem ordersOfA_eq_execStep (env : CycleEnvA) (opos : Option PositionD)
    (rows : List (Bar × IndicatorSet)) (s : ℚ) (executed : ExecDict) (orders : List Order)
    (hpos : findOpenPositionE env.positions env.asset = .ok opos)
    (hb : env.bars.isEmpty = false)
    (hi : add_indicators env.bars = .ok rows)
    (he : ((decisionOfA env).lookup "error").isSome = false)
    (hs : sizingOfA env = .ok s)
    (hx : execStepAttached env opos rows (actionOfA env) s = .ok (executed, orders)) :
    ordersOfA env = orders := by
  unfold ordersOfA trading_cycle_attached
  simp only [hpos, hb, Bool.false_eq_true, if_false, hi, he, hs, hx]
  cases hc : tradeCountE ([] ++
      [log_trade env.asset (decisionOfA env) executed,
        log_trade env.asset (decisionOfA env) executed]) with
  | error er => simp [hc]
  | ok cnt => simp [hc]

theorem jStrEq_eq_true_iff (j : JVal) (s : String) :
    jStrEq j s = true ↔ j = .str s := by
  cases j <;> simp [jStrEq]

/-- C3: with an open position, the cycle's only automatic action is a full
close — long+SELL submits exactly one market SELL of the full absolute
quantity, short+BUY exactly one market BUY of it, and every other
recommendation submits no order at all. -/
theorem c3_close_only (env : CycleEnvA) (pos : PositionD)
    (rows : List (Bar × IndicatorSet)) (s : ℚ)
    (hpos : findOpenPositionE env.positions env.asset = .ok (some pos))
    (hb : env.bars.isEmpty = false)
    (hi : add_indicators env.bars = .ok rows)
    (he : ((decisionOfA env).lookup "error").isSome = false)
    (hs : sizingOfA env = .ok s) :
    ((strLower (pos.side.getD "long") = "long" ∧ actionOfA env = .str "SELL") →
        ordersOfA env = [⟨env.asset, |pos.qty.getD 0|, "SELL"⟩]) ∧
    ((strLower (pos.side.getD "long") = "short" ∧ actionOfA env = .str "BUY") →
        ordersOfA env = [⟨env.asset, |pos.qty.getD 0|, "BUY"⟩]) ∧
    (¬(strLower (pos.side.getD "long") = "long" ∧ actionOfA env = .str "SELL") →
      ¬(strLower (pos.side.getD "long") = "short" ∧ actionOfA env = .str "BUY") →
        ordersOfA env = []) := by
  refine ⟨?_, ?_, ?_⟩
  · rintro ⟨hside, hact⟩
    have hcond : (strLower (pos.side.getD "long") == "long" &&
        jStrEq (actionOfA env) "SELL") = true := by
      rw [hside, hact]
      rfl
    have hx : execStepAttached env (some pos) rows (actionOfA env) s =
        .ok (env.orderOutcome, [⟨env.asset, |pos.qty.getD 0|, "SELL"⟩]) := by
      simp only [execStepAttached]
      rw [if_pos hcond]
    exact ordersOfA_eq_execStep env (some pos) rows s _ _ hpos hb hi he hs hx
  · rintro ⟨hside, hact⟩
    have hc1 : (strLower (pos.side.getD "long") == "long" &&
        jStrEq (actionOfA env) "SELL") = false := by
      rw [hside]
      rfl
    have hcond : (strLower (pos.side.getD "long") == "short" &&
        jStrEq (actionOfA env) "BUY") = true := by
      rw [hside, hact]
      rfl
    have hx : execStepAttached env (some pos) rows (actionOfA env) s =
        .ok (env.orderOutcome, [⟨env.asset, |pos.qty.getD 0|, "BUY"⟩]) := by
      simp only [execStepAttached]
      rw [if_neg (by simp [hc1]), if_pos hcond]
    exact ordersOfA_eq_execStep env (some pos) rows s _ _ hpos hb hi he hs hx
  · intro h1 h2
    have hc1 : (strLower (pos.side.getD "long") == "long" &&
        jStrEq (actionOfA env) "SELL") = false := by
      by_cases hA : strLower (pos.side.getD "long") = "long"
      · have hB : jStrEq (actionOfA env) "SELL" = false := by
          rw [Bool.eq_false_iff]
          intro ht
          exact h1 ⟨hA, (jStrEq_eq_true_iff _ _).mp ht⟩
        simp [hB]
      · simp [beq_eq_false_iff_ne.mpr hA]
    have hc2 : (strLower (pos.side.getD "long") == "short" &&
        jStrEq (actionOfA env) "BUY") = false := by
      by_cases hA : strLower (pos.side.getD "long") = "short"
      · have hB : jStrEq (actionOfA env) "BUY" = false := by
          rw [Bool.eq_false_iff]
          intro ht
          exact h2 ⟨hA, (jStrEq_eq_true_iff _ _).mp ht⟩
        simp [hB]
      · simp [beq_eq_false_iff_ne.mpr hA]
    have hnc1 : ¬((strLower (pos.side.getD "long") == "long" &&
        jStrEq (actionOfA env) "SELL") = true) := by
      simp [hc1]
    have hnc2 : ¬((strLower (pos.side.getD "long") == "short" &&
        jStrEq (actionOfA env) "BUY") = true) := by
      simp [hc2]
    have hx : execStepAttached env (some pos) rows (actionOfA env) s =
        .ok (noTradeExec, []) := by
      simp only [execStepAttached]
      rw [if_neg hnc1, if_neg hnc2]
    exact ordersOfA_eq_execStep env (some pos) rows s _ _ hpos hb hi he hs hx

/-- Environment with an open long position of 2 units and a SELL decision. -/
def envC3 : CycleEnvA :=
  { asset := "BTC/USD"
    positions := [⟨some "BTC/USD", some "long", some 2⟩]
    bars := bars26
    parse := fun _ => some [("recommendation", .str "SELL"), ("position_sizing", .num 5)]
    rawResponse := "\x7bdecision\x7d"
    account := some ⟨10000⟩
    orderOutcome := ⟨some 2, some 100, some "filled"⟩ }

set_option maxRecDepth 40000 in
/-- Witness for C3: the open long position is fully closed by one SELL. -/
theorem c3_close_only_witness :
    ordersOfA envC3 = [⟨"BTC/USD", |(2 : ℚ)|, "SELL"⟩] :=
  (c3_close_only envC3 ⟨some "BTC/USD", some "long", some 2⟩ [] 5
      (by rfl) (by rfl) (by rfl) (by rfl) (by rfl)).1 ⟨by rfl, by rfl⟩

/-- The aligned frame `add_indicators` produced (empty on error). -/
def alignedOf (bars : List Bar) : List (Bar × IndicatorSet) :=
  match add_indicators bars with
  | .ok r => r
  | .error _ => []

theorem add_indicators_ok_alignedOf (bars : List Bar)
    (h : (add_indicators bars).isOk = true) :
    add_indicators bars = .ok (alignedOf bars) := by
  cases hx : add_indicators bars with
  | error e => rw [hx] at h; simp [Except.isOk, Except.toBool] at h
  | ok r => simp [alignedOf, hx]

/-- C4: with no open position, a BUY or SELL decision with sizing `s > 0`
submits exactly one market order of quantity
`round(equity * s / 100 / last_close, 6)` against the last close of the
fetched bar series; sizing 0 or a HOLD decision submits nothing. -/
theorem c4_sizing (env : CycleEnvA) (s : ℚ) (acct : Account)
    (hpos : findOpenPositionE env.positions env.asset = .ok none)
    (hb : env.bars.isEmpty = false)
    (hi : (add_indicators env.bars).isOk = true)
    (he : ((decisionOfA env).lookup "error").isSome = false)
    (hs : sizingOfA env = .ok s) :
    ((alignedOf env.bars).isEmpty = false → isBuySellV (actionOfA env) = true →
      0 < s → env.account = some acct →
      ordersOfA env =
        [⟨env.asset, pyRound6 (acct.equity * s / 100 / lastCloseD env.bars),
          jvalStr (actionOfA env)⟩]) ∧
    ((s = 0 ∨ actionOfA env = .str "HOLD") → ordersOfA env = []) := by
  have hiok := add_indicators_ok_alignedOf env.bars hi
  constructor
  · intro hne hbs hspos hacct
    have hne' : alignedOf env.bars ≠ [] := by
      intro hcon
      rw [hcon] at hne
      simp at hne
    obtain ⟨r, hr⟩ := Option.isSome_iff_exists.mp
      (List.getLast?_isSome.mpr hne')
    have hclose := aligned_last_close env.bars (alignedOf env.bars) hiok hne'
    rw [hr] at hclose
    simp only [Option.map_some', Option.some.injEq] at hclose
    have hcond : (isBuySellV (actionOfA env) && decide (0 < s)) = true := by
      rw [hbs]
      simpa using hspos
    have hx : execStepAttached env none (alignedOf env.bars) (actionOfA env) s =
        .ok (env.orderOutcome,
          [⟨env.asset, pyRound6 (acct.equity * s / 100 / r.1.close),
            jvalStr (actionOfA env)⟩]) := by
      simp only [execStepAttached]
      rw [if_pos hcond]
      simp only [hacct, hr]
    have horders := ordersOfA_eq_execStep env none (alignedOf env.bars) s _ _
      hpos hb hiok he hs hx
    rw [horders, hclose]
  · intro hca
    have hcond : (isBuySellV (actionOfA env) && decide (0 < s)) = false := by
      rcases hca with hs0 | hHold
      · subst hs0
        simp
      · rw [hHold]
        rfl
    have hncond : ¬((isBuySellV (actionOfA env) && decide (0 < s)) = true) := by
      simp [hcond]
    have hx : execStepAttached env none (alignedOf env.bars) (actionOfA env) s =
        .ok (noTradeExec, []) := by
      simp only [execStepAttached]
      rw [if_neg hncond]
    exact ordersOfA_eq_execStep env none (alignedOf env.bars) s _ _
      hpos hb hiok he hs hx

/-- The spec's sizing scenario: no position, equity 10000, sizing 15, last
close 200. -/
def envC4 : CycleEnvA :=
  { asset := "BTC/USD"
    positions := []
    bars := bars50
    parse := fun _ => some [("recommendation", .str "BUY"), ("position_sizing", .num 15)]
    rawResponse := "\x7bdecision\x7d"
    account := some ⟨10000⟩
    orderOutcome := ⟨some (15 / 2), some 200, some "filled"⟩ }

set_option maxRecDepth 100000 in
set_option maxHeartbeats 4000000 in
/-- Witness for C4 at the spec's scenario: quantity
`round(10000 · 15 / 100 / 200, 6) = 7.5`. -/
theorem c4_sizing_witness :
    ordersOfA envC4 =
      [⟨"BTC/USD", pyRound6 ((10000 : ℚ) * 15 / 100 / 200), "BUY"⟩] :=
  (c4_sizing envC4 15 ⟨10000⟩ (by rfl) (by rfl) (by decide) (by rfl)
      (by rfl)).1 (by decide) (by rfl) (by norm_num) (by rfl)

end TB
